import Mathlib

/-!
# Verification of the simplelock registry core (`simplelock.py`)

Shallow embedding of the Mercurial `simplelock` extension.  The registry
file (`locked` in the lock repository's working copy) is modelled as the
list of its raw text lines, each line carrying its terminating newline
character; this is exact whenever the fields written by `lockcmd` contain
no newline (the sanitisation assumption stated in the spec).  The
reconciliation step (`lsync`) is modelled by taking the already
reconciled registry contents as an explicit input, and the external
version-control collaborators (`commit`, `push`) by the `commitpush`
outcome record.  Python `str.strip()` / `str.split('\t')` are embedded
character-exactly.
-/

/-- The six ASCII whitespace characters stripped by Python `str.strip()`. -/
def isPySpace (c : Char) : Bool :=
  c = ' ' || c = '\t' || c = '\n' || c = '\r' || c = '\x0b' || c = '\x0c'

/-- Python `str.strip()` on a character list: drop ASCII whitespace from
both ends. -/
def pystrip (l : List Char) : List Char :=
  ((l.dropWhile isPySpace).reverse.dropWhile isPySpace).reverse

/-- One lock record: the five tab-separated fields of a registry line
(`repoid`, `branch`, `wfile`, `user`, `purpose` in the source). -/
structure LockRec where
  rid : String
  branch : String
  wfile : String
  user : String
  purpose : String
deriving DecidableEq, Repr

/-- `line.strip().split('\t')` destructured into five fields
(`parseLocks` lines 72-75): `none` when the split does not give exactly
five fields. -/
def decodeLine (line : String) : Option LockRec :=
  match (pystrip line.toList).splitOn '\t' with
  | [a, b, c, d, e] => some ⟨String.mk a, String.mk b, String.mk c, String.mk d, String.mk e⟩
  | _ => none

/-- `'\t'.join([repoid, curbranch, wfile, user, purpose]) + '\n'`
(`lockcmd` line 193). -/
def encodeRec (r : LockRec) : String :=
  String.mk (List.intercalate ['\t']
    [r.rid.toList, r.branch.toList, r.wfile.toList, r.user.toList, r.purpose.toList] ++ ['\n'])

/-- The in-memory lock mapping built by `parseLocks`: a Python dict from
path to `[user, purpose]`, modelled as an association list with
overwrite-in-place insertion. -/
abbrev LockMap := List (String × String × String)

def dictGet : LockMap → String → Option (String × String)
  | [], _ => none
  | (k, u, p) :: rest, w => if k = w then some (u, p) else dictGet rest w

def dictInsert : LockMap → String → String → String → LockMap
  | [], k, u, p => [(k, u, p)]
  | (k0, u0, p0) :: rest, k, u, p =>
    if k0 = k then (k, u, p) :: rest else (k0, u0, p0) :: dictInsert rest k u p

def dictKeys (m : LockMap) : List String := m.map (fun e => e.1)

/-- The `for line in f` loop of `parseLocks` (lines 70-77): decode each
line, keep records matching the caller's repository identity and branch,
store them in the dict keyed by path. -/
def parseLocksAux (repoid curbranch : String) (locks : LockMap) : List String → LockMap
  | [] => locks
  | line :: rest =>
    match decodeLine line with
    | some r =>
      if r.rid = repoid ∧ r.branch = curbranch then
        parseLocksAux repoid curbranch (dictInsert locks r.wfile r.user r.purpose) rest
      else
        parseLocksAux repoid curbranch locks rest
    | none => parseLocksAux repoid curbranch locks rest

def parseLocksLines (repoid curbranch : String) (lines : List String) : LockMap :=
  parseLocksAux repoid curbranch [] lines

/-- `parseLocks` (lines 60-78).  The registry file is `none` when absent
from the mirror; in that case the function warns (`Bool` component
`true`) and returns the empty mapping. -/
def parseLocks (repoid curbranch : String) : Option (List String) → LockMap × Bool
  | none => ([], true)
  | some lines => (parseLocksLines repoid curbranch lines, false)

/-- Outcome of `commitpush` (lines 41-46): the commit always runs; the
push is attempted and an `Abort` from it is caught and turned into the
retry warning. -/
structure PushOutcome where
  committed : Bool
  pushed : Bool
  warnedRetry : Bool
deriving DecidableEq, Repr

/-- `commitpush` (lines 41-46), parametrised by whether the push raises
`Abort` in the external collaborator. -/
def commitpush (pushFails : Bool) : PushOutcome :=
  { committed := true, pushed := !pushFails, warnedRetry := pushFails }

/-- Result of `lockcmd`: either `error.Abort` was raised (before any
write, so the registry is carried unchanged), or the appended registry
was written and `commitpush` ran. -/
inductive LockResult where
  | aborted (msg : String) (registry : Option (List String))
  | ok (registry : List String) (push : PushOutcome)
deriving DecidableEq, Repr

/-- `opts.get('purpose') or 'editing'` (line 188). -/
def effPurpose (purposeOpt : String) : String :=
  if purposeOpt = "" then "editing" else purposeOpt

/-- `lockcmd` (lines 171-195) after reconciliation: parse the current
locks, abort on the first already-locked target, otherwise append one
encoded record per target (creating the registry file if absent) and
commit/push. -/
def lockcmd (repoid curbranch user purposeOpt : String) (files : List String)
    (registry : Option (List String)) (pushFails : Bool) : LockResult :=
  let locks := (parseLocks repoid curbranch registry).1
  match files.find? (fun w => (dictGet locks w).isSome) with
  | some w => .aborted (w ++ " is already locked\n") registry
  | none =>
    let purpose := effPurpose purposeOpt
    let newlines := files.map (fun w => encodeRec ⟨repoid, curbranch, w, user, purpose⟩)
    .ok (registry.getD [] ++ newlines) (commitpush pushFails)

/-- One acquire invocation: caller identity, `--purpose` option (empty
string when not given) and target paths (`m.files()`). -/
structure LockOp where
  user : String
  purposeOpt : String
  files : List String

/-- The record `lockcmd` writes for target `w` of operation `op`. -/
def lockRecOf (repoid curbranch : String) (op : LockOp) (w : String) : LockRec :=
  ⟨repoid, curbranch, w, op.user, effPurpose op.purposeOpt⟩

/-- The registry lines appended by one successful acquire. -/
def opLines (repoid curbranch : String) (op : LockOp) : List String :=
  op.files.map (fun w => encodeRec (lockRecOf repoid curbranch op w))

/-- Run a sequence of acquires against an evolving (reconciled) registry,
each push succeeding; `none` as soon as one aborts. -/
def runLocks (repoid curbranch : String) : List String → List LockOp → Option (List String)
  | st, [] => some st
  | st, op :: ops =>
    match lockcmd repoid curbranch op.user op.purposeOpt op.files (some st) false with
    | .ok st2 _ => runLocks repoid curbranch st2 ops
    | .aborted _ _ => none

/-- The diagnostic printed by `unlockcmd` on a shortfall (lines 154-159). -/
inductive UnlockMsg where
  | noLocksFound
  | onlySomeLocked (cleared requested : Nat)
deriving DecidableEq, Repr

/-- Result of `unlockcmd`: `ioError` models the uncaught exception from
`open(dfile, 'r')` when the registry file is missing; `failed` is the
`return 1` path, which performs no write (it carries the untouched
registry); `ok` carries the rewritten registry and the commit/push
outcome. -/
inductive UnlockResult where
  | ioError
  | failed (msg : UnlockMsg) (registry : List String)
  | ok (registry : List String) (push : PushOutcome)
deriving DecidableEq, Repr

/-- `cleared.add(wfile)`: Python set insertion, modelled as an
append-if-absent list of distinct paths. -/
def setAdd (s : List String) (w : String) : List String :=
  if w ∈ s then s else s ++ [w]

/-- The `for line in f` loop of `unlockcmd` (lines 143-152), accumulating
the `cleared` set and the `outlines` list.  Note the source appends to
`outlines` only inside the `len(fields) == 5` branch, so lines that do
not split into five fields are dropped. -/
def unlockScan (repoid curbranch curuser : String) (force : Bool) (ulock : List String)
    (cleared outlines : List String) : List String → List String × List String
  | [] => (cleared, outlines)
  | line :: rest =>
    match decodeLine line with
    | some r =>
      if r.rid = repoid ∧ r.branch = curbranch ∧ r.wfile ∈ ulock then
        if r.user = curuser ∨ force then
          unlockScan repoid curbranch curuser force ulock (setAdd cleared r.wfile) outlines rest
        else
          unlockScan repoid curbranch curuser force ulock cleared (outlines ++ [line]) rest
      else
        unlockScan repoid curbranch curuser force ulock cleared (outlines ++ [line]) rest
    | none => unlockScan repoid curbranch curuser force ulock cleared outlines rest

/-- `unlockcmd` (lines 123-165) after reconciliation: scan the registry,
and on any shortfall report a diagnostic chosen by the number of
requested files and return exit code 1 without writing; on full success
rewrite the file with the kept lines and commit/push. -/
def unlockcmd (repoid curbranch curuser : String) (force : Bool) (ulock : List String)
    (registry : Option (List String)) (pushFails : Bool) : UnlockResult :=
  match registry with
  | none => .ioError
  | some lines =>
    let scan := unlockScan repoid curbranch curuser force ulock [] [] lines
    if scan.1.length ≠ ulock.length then
      .failed (if ulock.length = 1 then .noLocksFound
               else .onlySomeLocked scan.1.length ulock.length) lines
    else
      .ok scan.2 (commitpush pushFails)

/-- Exit status of an unlock invocation (`none` models the uncaught
exception propagating). -/
def unlockExit : UnlockResult → Option Nat
  | .ioError => none
  | .failed _ _ => some 1
  | .ok _ _ => some 0

/-- Whether the unlock invocation committed the lock repository. -/
def unlockCommitted : UnlockResult → Bool
  | .ok _ po => po.committed
  | _ => false

/-- A registry line survives a successful unlock rewrite iff it splits
into five fields and is not cleared by the request. -/
def lineKept (repoid curbranch curuser : String) (force : Bool) (ulock : List String)
    (line : String) : Bool :=
  match decodeLine line with
  | some r =>
    if (r.rid = repoid ∧ r.branch = curbranch ∧ r.wfile ∈ ulock) ∧
        (r.user = curuser ∨ force = true) then false else true
  | none => false

/-- Character comparison by code point (Python byte-wise comparison). -/
def charLt (a b : Char) : Bool := decide (a.toNat < b.toNat)

/-- Lexicographic comparison of character lists, as Python compares
strings. -/
def listLe : List Char → List Char → Bool
  | [], _ => true
  | _ :: _, [] => false
  | a :: as, b :: bs =>
    if charLt a b then true else if charLt b a then false else listLe as bs

/-- Python string comparison `a <= b`. -/
def strLe (a b : String) : Prop := listLe a.toList b.toList = true

instance : DecidableRel strLe := fun a b => by unfold strLe; infer_instance

/-- `sorted(set(lockables) | set(locks))` (line 112): the
lexicographically sorted list of the distinct paths of both sets. -/
def sortedUnion (lockables lockedPaths : List String) : List String :=
  List.insertionSort strLe ((lockables ++ lockedPaths).dedup)

/-- The line `lockscmd` prints for a path when `--unlocked` is set. -/
def lockLine (locks : LockMap) (w : String) : String :=
  match dictGet locks w with
  | some (user, purpose) => w ++ " is locked by " ++ user ++ " for " ++ purpose ++ "\n"
  | none => w ++ " is unlocked\n"

/-- `lockscmd` (lines 105-118) after reconciliation: parse the locks,
sort the union of locked and lockable paths, and print one line per
locked path (and per unlocked path when `--unlocked` is set).  The
positional `pats` arguments are accepted but never consulted. -/
def lockscmd (repoid curbranch : String) (registry : Option (List String))
    (lockables : List String) (unlocked : Bool) (pats : List String) : List String :=
  let locks := (parseLocks repoid curbranch registry).1
  let su := sortedUnion lockables (dictKeys locks)
  su.flatMap (fun wfile =>
    match dictGet locks wfile with
    | some (user, purpose) => [wfile ++ " is locked by " ++ user ++ " for " ++ purpose ++ "\n"]
    | none => if unlocked then [wfile ++ " is unlocked\n"] else [])

/-! ## Field sanitisation

The spec (§4.1) assumes fields contain neither the delimiter nor a
newline; for the line to survive Python `strip()` unchanged its first
and last characters must also not be ASCII whitespace, which constrains
the first and last fields. -/

/-- The field contains no tab and no newline. -/
def noTabNL (s : String) : Bool := s.toList.all (fun c => !(c = '\t' || c = '\n'))

/-- The field does not start with ASCII whitespace. -/
def headNotWS (s : String) : Bool :=
  match s.toList.head? with
  | some c => !isPySpace c
  | none => true

/-- The field does not end with ASCII whitespace. -/
def lastNotWS (s : String) : Bool :=
  match s.toList.getLast? with
  | some c => !isPySpace c
  | none => true

/-- The per-field condition of the round-trip claim: no tab, no newline,
no leading or trailing whitespace. -/
def saneField (s : String) : Bool := noTabNL s && headNotWS s && lastNotWS s

/-- A record whose five fields are sanitised and whose first and last
fields are nonempty (so that `strip()` leaves its encoded line intact). -/
def saneRec (r : LockRec) : Prop :=
  saneField r.rid = true ∧ saneField r.branch = true ∧ saneField r.wfile = true ∧
  saneField r.user = true ∧ saneField r.purpose = true ∧ r.rid ≠ "" ∧ r.purpose ≠ ""

theorem toList_eq_nil_iff (s : String) : s.toList = [] ↔ s = "" := by
  cases s with
  | mk data =>
    constructor
    · intro h
      exact String.ext h
    · intro h
      rw [h]
      rfl

theorem not_tab_mem_of_noTabNL {s : String} (h : noTabNL s = true) : '\t' ∉ s.toList := by
  intro hmem
  have := List.all_eq_true.mp h '\t' hmem
  simp at this

theorem dropWhile_eq_self_of_head (p : Char → Bool) (l : List Char)
    (h : ∀ c, l.head? = some c → p c = false) : l.dropWhile p = l := by
  cases l with
  | nil => rfl
  | cons a t =>
    have := h a rfl
    simp [List.dropWhile_cons, this]

/-- Python `strip()` removes exactly the final newline from a line whose
body neither starts nor ends with ASCII whitespace. -/
theorem pystrip_sandwich (l : List Char) (a b : Char)
    (ha : l.head? = some a) (hb : l.getLast? = some b)
    (hsa : isPySpace a = false) (hsb : isPySpace b = false) :
    pystrip (l ++ ['\n']) = l := by
  unfold pystrip
  have h1 : (l ++ ['\n']).dropWhile isPySpace = l ++ ['\n'] := by
    apply dropWhile_eq_self_of_head
    intro c hc
    cases l with
    | nil => simp at ha
    | cons x t =>
      simp only [List.head?_cons, Option.some.injEq] at ha
      simp only [List.cons_append, List.head?_cons, Option.some.injEq] at hc
      rw [← hc, ha]
      exact hsa
  rw [h1]
  have h2 : (l ++ ['\n']).reverse = '\n' :: l.reverse := by
    simp
  rw [h2]
  have h3 : List.dropWhile isPySpace ('\n' :: l.reverse) = List.dropWhile isPySpace l.reverse := by
    simp [List.dropWhile_cons, isPySpace]
  rw [h3]
  have h4 : List.dropWhile isPySpace l.reverse = l.reverse := by
    apply dropWhile_eq_self_of_head
    intro c hc
    rw [List.head?_reverse, hb] at hc
    injection hc with hc
    rw [← hc]
    exact hsb
  rw [h4, List.reverse_reverse]

theorem getLast?_append_some {α : Type} {l2 : List α} {b : α} (l1 : List α)
    (h : l2.getLast? = some b) : (l1 ++ l2).getLast? = some b := by
  rw [List.getLast?_append, h]
  rfl

theorem getLast?_cons_some {α : Type} {l : List α} {b : α} (a : α)
    (h : l.getLast? = some b) : (a :: l).getLast? = some b := by
  have hx : a :: l = [a] ++ l := rfl
  rw [hx]
  exact getLast?_append_some [a] h

/-- The tab-join of the five fields written out explicitly. -/
theorem intercalate_five (A B C D E : List Char) :
    List.intercalate ['\t'] [A, B, C, D, E] =
      A ++ '\t' :: (B ++ '\t' :: (C ++ '\t' :: (D ++ '\t' :: E))) := by
  simp [List.intercalate, List.intersperse]

/-- Decoding is a left inverse of encoding on sanitised records
(`parseLocks` line parsing versus `lockcmd` line writing). -/
theorem decodeLine_encodeRec (r : LockRec) (h : saneRec r) :
    decodeLine (encodeRec r) = some r := by
  obtain ⟨h1, h2, h3, h4, h5, hrnil, hpnil⟩ := h
  have hAne : r.rid.toList ≠ [] := fun hc => hrnil ((toList_eq_nil_iff _).mp hc)
  have hEne : r.purpose.toList ≠ [] := fun hc => hpnil ((toList_eq_nil_iff _).mp hc)
  set A := r.rid.toList with hA
  set B := r.branch.toList with hB
  set C := r.wfile.toList with hC
  set D := r.user.toList with hD
  set E := r.purpose.toList with hE
  have hJ : List.intercalate ['\t'] [A, B, C, D, E] =
      A ++ '\t' :: (B ++ '\t' :: (C ++ '\t' :: (D ++ '\t' :: E))) := intercalate_five A B C D E
  obtain ⟨a, as, hAcons⟩ : ∃ a as, A = a :: as := by
    cases hAx : A with
    | nil => exact absurd hAx hAne
    | cons a as => exact ⟨a, as, rfl⟩
  have hhead : (List.intercalate ['\t'] [A, B, C, D, E]).head? = some a := by
    rw [hJ, hAcons]
    simp
  have hlastE : E.getLast? = some (E.getLast hEne) := List.getLast?_eq_getLast E hEne
  have hlast : (List.intercalate ['\t'] [A, B, C, D, E]).getLast? = some (E.getLast hEne) := by
    rw [hJ]
    exact getLast?_append_some A (getLast?_cons_some _ (getLast?_append_some B
      (getLast?_cons_some _ (getLast?_append_some C (getLast?_cons_some _
        (getLast?_append_some D (getLast?_cons_some _ hlastE)))))))
  simp only [saneField, Bool.and_eq_true] at h1 h2 h3 h4 h5
  have hsa : isPySpace a = false := by
    have hh := h1.1.2
    rw [headNotWS, ← hA, hAcons] at hh
    simpa using hh
  have hsb : isPySpace (E.getLast hEne) = false := by
    have hh := h5.2
    rw [lastNotWS, ← hE, hlastE] at hh
    simpa using hh
  have hstrip : pystrip (List.intercalate ['\t'] [A, B, C, D, E] ++ ['\n']) =
      List.intercalate ['\t'] [A, B, C, D, E] :=
    pystrip_sandwich _ a (E.getLast hEne) hhead hlast hsa hsb
  have hsplit : List.splitOn '\t' (List.intercalate ['\t'] [A, B, C, D, E]) = [A, B, C, D, E] := by
    apply List.splitOn_intercalate
    · intro l hl
      simp only [List.mem_cons, List.not_mem_nil, or_false] at hl
      rcases hl with rfl | rfl | rfl | rfl | rfl
      · exact not_tab_mem_of_noTabNL h1.1.1
      · exact not_tab_mem_of_noTabNL h2.1.1
      · exact not_tab_mem_of_noTabNL h3.1.1
      · exact not_tab_mem_of_noTabNL h4.1.1
      · exact not_tab_mem_of_noTabNL h5.1.1
    · simp
  show (match List.splitOn '\t' (pystrip (List.intercalate ['\t'] [A, B, C, D, E] ++ ['\n'])) with
    | [a, b, c, d, e] => some (⟨String.mk a, String.mk b, String.mk c, String.mk d, String.mk e⟩ : LockRec)
    | _ => none) = some r
  rw [hstrip, hsplit]
  rfl

example : decodeLine "r\tb\tf\tu\tp\n" = some ⟨"r", "b", "f", "u", "p"⟩ := by decide
example : decodeLine "\tb\tc\td\te\n" = none := by decide
example : encodeRec ⟨"r", "b", "f", "u", "p"⟩ = "r\tb\tf\tu\tp\n" := by decide
example : parseLocksLines "r" "b" ["r\tb\tf\tu\tp\n", "x\n"] = [("f", "u", "p")] := by decide
example : unlockcmd "r" "b" "u" false ["f"] (some ["junk\n", "r\tb\tf\tu\tp\n"]) false
    = .ok [] (commitpush false) := by decide
example : unlockcmd "r" "b" "u" false ["a", "b"] (some []) false
    = .failed (.onlySomeLocked 0 2) [] := by decide
example : lockscmd "r" "b" (some ["r\tb\tf\tu\tp\n"]) ["a"] true ["zz"]
    = ["a is unlocked\n", "f is locked by u for p\n"] := by decide
example : lockscmd "r" "b" (some ["r\tb\tf\tu\tp\n"]) ["a"] false []
    = ["f is locked by u for p\n"] := by decide
example : lockcmd "r" "b" "u" "" ["g"] (some ["r\tb\tf\tu\tp\n"]) false
    = .ok ["r\tb\tf\tu\tp\n", "r\tb\tg\tu\tediting\n"] (commitpush false) := by decide
example : lockcmd "r" "b" "u" "" ["f"] (some ["r\tb\tf\tu\tp\n"]) false
    = .aborted "f is already locked\n" (some ["r\tb\tf\tu\tp\n"]) := by decide

/-! ## Dictionary lemmas -/

theorem dictGet_dictInsert_self (m : LockMap) (k u p : String) :
    dictGet (dictInsert m k u p) k = some (u, p) := by
  induction m with
  | nil => simp [dictInsert, dictGet]
  | cons e rest ih =>
    obtain ⟨k0, u0, p0⟩ := e
    by_cases h : k0 = k
    · simp [dictInsert, h, dictGet]
    · simp [dictInsert, h, dictGet, ih]

theorem dictGet_dictInsert_ne (m : LockMap) {k w : String} (u p : String) (h : k ≠ w) :
    dictGet (dictInsert m k u p) w = dictGet m w := by
  induction m with
  | nil => simp [dictInsert, dictGet, h]
  | cons e rest ih =>
    obtain ⟨k0, u0, p0⟩ := e
    by_cases h0 : k0 = k
    · subst h0
      simp [dictInsert, dictGet, h]
    · by_cases h1 : k0 = w
      · simp [dictInsert, h0, dictGet, h1, h.symm]
      · simp [dictInsert, h0, dictGet, h1, ih]

/-- Inserting a parsed record into the mapping. -/
def insRec (m : LockMap) (r : LockRec) : LockMap := dictInsert m r.wfile r.user r.purpose

theorem dictGet_foldl_not_mem (recs : List LockRec) (w : String)
    (h : w ∉ recs.map LockRec.wfile) :
    ∀ acc, dictGet (recs.foldl insRec acc) w = dictGet acc w := by
  induction recs with
  | nil => intro acc; rfl
  | cons r rest ih =>
    intro acc
    simp only [List.map_cons, List.mem_cons, not_or] at h
    rw [List.foldl_cons, ih (fun hm => h.2 hm) _]
    exact dictGet_dictInsert_ne acc r.user r.purpose (fun hc => h.1 hc.symm)

theorem dictGet_foldl_mem (recs : List LockRec) (r : LockRec) :
    r ∈ recs → (recs.map LockRec.wfile).Nodup →
    ∀ acc, dictGet (recs.foldl insRec acc) r.wfile = some (r.user, r.purpose) := by
  induction recs with
  | nil => intro hmem; cases hmem
  | cons s rest ih =>
    intro hmem hnd acc
    simp only [List.map_cons, List.nodup_cons] at hnd
    rw [List.foldl_cons]
    rcases List.mem_cons.mp hmem with rfl | hmem2
    · rw [dictGet_foldl_not_mem rest _ hnd.1 _]
      exact dictGet_dictInsert_self acc _ _ _
    · exact ih hmem2 hnd.2 _

/-! ## Parsing a registry made of well-formed record lines -/

theorem parseLocksAux_map_encode (repoid curbranch : String) (recs : List LockRec) :
    (∀ r ∈ recs, saneRec r ∧ r.rid = repoid ∧ r.branch = curbranch) →
    ∀ acc, parseLocksAux repoid curbranch acc (recs.map encodeRec) = recs.foldl insRec acc := by
  induction recs with
  | nil => intro _ acc; rfl
  | cons r rest ih =>
    intro h acc
    obtain ⟨hs, hrid, hbr⟩ := h r (List.mem_cons_self r rest)
    simp only [List.map_cons, List.foldl_cons, parseLocksAux, decodeLine_encodeRec r hs]
    rw [if_pos ⟨hrid, hbr⟩]
    exact ih (fun x hx => h x (List.mem_cons_of_mem _ hx)) _

/-! ## The acquire sequence -/

/-- Sanitised repository identity and branch (spec §4.1: fields contain
no delimiter or newline; the identity is a nonempty hex hash). -/
def saneCtx (repoid curbranch : String) : Prop :=
  saneField repoid = true ∧ saneField curbranch = true ∧ repoid ≠ ""

/-- Sanitised acquire arguments. -/
def saneOp (op : LockOp) : Prop :=
  saneField op.user = true ∧ saneField (effPurpose op.purposeOpt) = true ∧
  ∀ w ∈ op.files, saneField w = true

theorem effPurpose_ne_empty (p : String) : effPurpose p ≠ "" := by
  unfold effPurpose
  split
  · intro h
    exact absurd h (by decide)
  · assumption

/-- The records written by one acquire. -/
def recsOf (repoid curbranch : String) (op : LockOp) : List LockRec :=
  op.files.map (lockRecOf repoid curbranch op)

/-- The records written by a sequence of acquires, in order. -/
def allRecs (repoid curbranch : String) (ops : List LockOp) : List LockRec :=
  ops.flatMap (recsOf repoid curbranch)

theorem opLines_eq (repoid curbranch : String) (op : LockOp) :
    opLines repoid curbranch op = (recsOf repoid curbranch op).map encodeRec := by
  simp [opLines, recsOf, List.map_map]

theorem recsOf_map_wfile (repoid curbranch : String) (op : LockOp) :
    (recsOf repoid curbranch op).map LockRec.wfile = op.files := by
  simp [recsOf, List.map_map]
  have : (LockRec.wfile ∘ lockRecOf repoid curbranch op) = id := by
    funext w
    rfl
  rw [this, List.map_id]

theorem allRecs_map_wfile (repoid curbranch : String) (ops : List LockOp) :
    (allRecs repoid curbranch ops).map LockRec.wfile = ops.flatMap LockOp.files := by
  rw [allRecs, List.map_flatMap]
  congr 1
  funext op
  exact recsOf_map_wfile repoid curbranch op

theorem saneRec_lockRecOf {repoid curbranch : String} {op : LockOp} {w : String}
    (hctx : saneCtx repoid curbranch) (hop : saneOp op) (hw : w ∈ op.files) :
    saneRec (lockRecOf repoid curbranch op w) :=
  ⟨hctx.1, hctx.2.1, hop.2.2 w hw, hop.1, hop.2.1, hctx.2.2, effPurpose_ne_empty _⟩

theorem allRecs_sane {repoid curbranch : String} {ops : List LockOp}
    (hctx : saneCtx repoid curbranch) (hops : ∀ op ∈ ops, saneOp op) :
    ∀ r ∈ allRecs repoid curbranch ops, saneRec r ∧ r.rid = repoid ∧ r.branch = curbranch := by
  intro r hr
  rw [allRecs, List.mem_flatMap] at hr
  obtain ⟨op, hop, hrop⟩ := hr
  rw [recsOf, List.mem_map] at hrop
  obtain ⟨w, hw, rfl⟩ := hrop
  exact ⟨saneRec_lockRecOf hctx (hops op hop) hw, rfl, rfl⟩

/-- A successful acquire appends its lines to the registry. -/
theorem lockcmd_ok_of_fresh (repoid curbranch : String) (op : LockOp) (lines : List String)
    (pushFails : Bool)
    (hfind : op.files.find?
      (fun w => (dictGet ((parseLocks repoid curbranch (some lines)).1) w).isSome) = none) :
    lockcmd repoid curbranch op.user op.purposeOpt op.files (some lines) pushFails
      = .ok (lines ++ opLines repoid curbranch op) (commitpush pushFails) := by
  simp only [lockcmd]
  rw [hfind]
  rfl

/-- Invariant step for a sequence of fresh acquires: starting from a
registry holding exactly the records of the operations already done,
the remaining operations all succeed and append their records. -/
theorem runLocks_go (repoid curbranch : String) (hctx : saneCtx repoid curbranch) :
    ∀ (ops : List LockOp) (done : List LockRec),
      (∀ r ∈ done, saneRec r ∧ r.rid = repoid ∧ r.branch = curbranch) →
      (∀ op ∈ ops, saneOp op) →
      ((done.map LockRec.wfile) ++ ops.flatMap LockOp.files).Nodup →
      runLocks repoid curbranch (done.map encodeRec) ops =
        some ((done ++ allRecs repoid curbranch ops).map encodeRec) := by
  intro ops
  induction ops with
  | nil =>
    intro done _ _ _
    simp [runLocks, allRecs]
  | cons op rest ih =>
    intro done hdone hops hnd
    rw [List.flatMap_cons] at hnd
    have hparse : (parseLocks repoid curbranch (some (done.map encodeRec))).1
        = done.foldl insRec [] := by
      simp only [parseLocks, parseLocksLines]
      exact parseLocksAux_map_encode repoid curbranch done hdone []
    have hfind : op.files.find?
        (fun w => (dictGet ((parseLocks repoid curbranch
          (some (done.map encodeRec))).1) w).isSome) = none := by
      rw [List.find?_eq_none]
      intro w hw
      rw [hparse]
      have hwnot : w ∉ done.map LockRec.wfile := by
        rw [List.nodup_append] at hnd
        intro hmem
        exact hnd.2.2 hmem (List.mem_append.mpr (Or.inl hw))
      rw [dictGet_foldl_not_mem done w hwnot []]
      simp [dictGet]
    have hcmd := lockcmd_ok_of_fresh repoid curbranch op (done.map encodeRec) false hfind
    rw [runLocks, hcmd]
    dsimp only
    have hreg : done.map encodeRec ++ opLines repoid curbranch op
        = (done ++ recsOf repoid curbranch op).map encodeRec := by
      rw [opLines_eq, List.map_append]
    rw [hreg]
    have hdone2 : ∀ r ∈ done ++ recsOf repoid curbranch op,
        saneRec r ∧ r.rid = repoid ∧ r.branch = curbranch := by
      intro r hr
      rcases List.mem_append.mp hr with hr | hr
      · exact hdone r hr
      · rw [recsOf, List.mem_map] at hr
        obtain ⟨w, hw, rfl⟩ := hr
        exact ⟨saneRec_lockRecOf hctx (hops op (List.mem_cons_self op rest)) hw, rfl, rfl⟩
    have hnd2 : ((done ++ recsOf repoid curbranch op).map LockRec.wfile
        ++ rest.flatMap LockOp.files).Nodup := by
      rw [List.map_append, recsOf_map_wfile, List.append_assoc]
      exact hnd
    rw [ih (done ++ recsOf repoid curbranch op) hdone2
      (fun o ho => hops o (List.mem_cons_of_mem op ho)) hnd2]
    simp [allRecs, List.flatMap_cons, List.append_assoc]

instance (repoid curbranch : String) : Decidable (saneCtx repoid curbranch) := by
  unfold saneCtx
  infer_instance

instance (op : LockOp) : Decidable (saneOp op) := by
  unfold saneOp
  infer_instance

instance (r : LockRec) : Decidable (saneRec r) := by
  unfold saneRec
  infer_instance

/-- A registry line carries a record for path `w` under the given
repository identity and branch. -/
def recMatches (repoid curbranch w : String) (line : String) : Bool :=
  match decodeLine line with
  | some r => r.rid = repoid && r.branch = curbranch && r.wfile = w
  | none => false

/-- C1: starting from an empty registry, any sequence of acquire
operations on pairwise disjoint (and duplicate-free) target path sets
for one repository identity and branch succeeds; the resulting registry
consists of exactly the appended records — exactly one line per acquired
(repoIdentity, branch, path) — and `parseLocks` maps each acquired path
to the owner and purpose recorded at acquisition. -/
theorem C1_acquire_sequence (repoid curbranch : String) (ops : List LockOp)
    (hctx : saneCtx repoid curbranch) (hops : ∀ op ∈ ops, saneOp op)
    (hdisj : (ops.flatMap LockOp.files).Nodup) :
    runLocks repoid curbranch [] ops
      = some ((allRecs repoid curbranch ops).map encodeRec) ∧
    (∀ op ∈ ops, ∀ w ∈ op.files,
      dictGet (parseLocksLines repoid curbranch
          ((allRecs repoid curbranch ops).map encodeRec)) w
        = some (op.user, effPurpose op.purposeOpt)) ∧
    (∀ op ∈ ops, ∀ w ∈ op.files,
      ((allRecs repoid curbranch ops).map encodeRec).countP
        (recMatches repoid curbranch w) = 1) := by
  have hsane := allRecs_sane hctx hops
  have hkeys : (allRecs repoid curbranch ops).map LockRec.wfile = ops.flatMap LockOp.files :=
    allRecs_map_wfile repoid curbranch ops
  have hkeysnd : ((allRecs repoid curbranch ops).map LockRec.wfile).Nodup := by
    rw [hkeys]; exact hdisj
  refine ⟨?_, ?_, ?_⟩
  · have h := runLocks_go repoid curbranch hctx ops [] (by intro r hr; cases hr) hops
      (by simpa using hdisj)
    simpa using h
  · intro op hop w hw
    have hparse : parseLocksLines repoid curbranch ((allRecs repoid curbranch ops).map encodeRec)
        = (allRecs repoid curbranch ops).foldl insRec [] := by
      rw [parseLocksLines]
      exact parseLocksAux_map_encode repoid curbranch _ hsane []
    have hmem : lockRecOf repoid curbranch op w ∈ allRecs repoid curbranch ops := by
      rw [allRecs, List.mem_flatMap]
      exact ⟨op, hop, by rw [recsOf]; exact List.mem_map_of_mem _ hw⟩
    have h := dictGet_foldl_mem (allRecs repoid curbranch ops)
      (lockRecOf repoid curbranch op w) hmem hkeysnd []
    rw [hparse]
    exact h
  · intro op hop w hw
    rw [List.countP_map]
    have hcongr : ∀ r ∈ allRecs repoid curbranch ops,
        ((recMatches repoid curbranch w ∘ encodeRec) r = true) ↔ ((r.wfile == w) = true) := by
      intro r hr
      obtain ⟨hs, hrid, hbr⟩ := hsane r hr
      show (recMatches repoid curbranch w (encodeRec r) = true) ↔ _
      rw [recMatches, decodeLine_encodeRec r hs]
      simp [hrid, hbr]
    rw [List.countP_congr hcongr]
    have hcnt : (allRecs repoid curbranch ops).countP (fun r => r.wfile == w)
        = ((allRecs repoid curbranch ops).map LockRec.wfile).count w := by
      rw [List.count_eq_countP, List.countP_map]
      rfl
    rw [hcnt, hkeys]
    exact List.count_eq_one_of_mem hdisj (List.mem_flatMap.mpr ⟨op, hop, hw⟩)

/-- Concrete acquire sequence used to witness C1. -/
def c1ops : List LockOp :=
  [⟨"alice", "", ["a.bin", "b.bin"]⟩, ⟨"bob", "fix assets", ["c.bin"]⟩]

/-- Witness for C1 at a concrete two-operation sequence. -/
theorem C1_acquire_sequence_witness :
    saneCtx "deadbeef" "default" ∧ (c1ops.flatMap LockOp.files).Nodup ∧
    (runLocks "deadbeef" "default" [] c1ops
      = some ((allRecs "deadbeef" "default" c1ops).map encodeRec) ∧
    (∀ op ∈ c1ops, ∀ w ∈ op.files,
      dictGet (parseLocksLines "deadbeef" "default"
          ((allRecs "deadbeef" "default" c1ops).map encodeRec)) w
        = some (op.user, effPurpose op.purposeOpt)) ∧
    (∀ op ∈ c1ops, ∀ w ∈ op.files,
      ((allRecs "deadbeef" "default" c1ops).map encodeRec).countP
        (recMatches "deadbeef" "default" w) = 1)) :=
  ⟨by decide, by decide,
    C1_acquire_sequence "deadbeef" "default" c1ops (by decide) (by decide) (by decide)⟩

/-! ## The unlock scan -/

/-- The `outlines` accumulated by the unlock loop are the initial
accumulator followed by exactly the kept lines, in their original
order. -/
theorem unlockScan_outlines (repoid curbranch curuser : String) (force : Bool)
    (ulock : List String) :
    ∀ (lines cleared outlines : List String),
      (unlockScan repoid curbranch curuser force ulock cleared outlines lines).2
        = outlines ++ lines.filter (lineKept repoid curbranch curuser force ulock) := by
  intro lines
  induction lines with
  | nil =>
    intro c o
    simp [unlockScan]
  | cons line rest ih =>
    intro c o
    rw [List.filter_cons]
    cases hd : decodeLine line with
    | none =>
      have hk : lineKept repoid curbranch curuser force ulock line = false := by
        simp only [lineKept, hd]
      simp only [unlockScan, hd, hk]
      simp [ih c o]
    | some r =>
      simp only [unlockScan, hd]
      by_cases h1 : r.rid = repoid ∧ r.branch = curbranch ∧ r.wfile ∈ ulock
      · rw [if_pos h1]
        by_cases h2 : r.user = curuser ∨ force = true
        · have hk : lineKept repoid curbranch curuser force ulock line = false := by
            simp only [lineKept, hd]
            rw [if_pos ⟨h1, h2⟩]
          rw [if_pos h2, hk]
          simp [ih _ o]
        · have hk : lineKept repoid curbranch curuser force ulock line = true := by
            simp only [lineKept, hd]
            rw [if_neg (fun hc => h2 hc.2)]
          rw [if_neg h2, hk]
          simp [ih c (o ++ [line])]
      · have hk : lineKept repoid curbranch curuser force ulock line = true := by
          simp only [lineKept, hd]
          rw [if_neg (fun hc => h1 hc.1)]
        rw [if_neg h1, hk]
        simp [ih c (o ++ [line])]

/-- A fully successful unlock rewrites the registry with exactly the
kept lines and commits/pushes. -/
theorem unlockcmd_full_success (repoid curbranch curuser : String) (force : Bool)
    (ulock lines : List String) (pushFails : Bool)
    (hfull : (unlockScan repoid curbranch curuser force ulock [] [] lines).1.length
      = ulock.length) :
    unlockcmd repoid curbranch curuser force ulock (some lines) pushFails
      = .ok (lines.filter (lineKept repoid curbranch curuser force ulock))
          (commitpush pushFails) := by
  simp only [unlockcmd]
  rw [if_neg (by rw [hfull]; exact fun hc => hc rfl)]
  rw [unlockScan_outlines repoid curbranch curuser force ulock lines [] []]
  rfl

/-- C2: whenever the unlock scan clears fewer paths than were requested,
the command writes nothing (the `failed` result carries the registry
byte-identical to the reconciled input), performs no commit or push, and
returns exit code 1, reporting the source's diagnostic. -/
theorem C2_unlock_shortfall_no_mutation (repoid curbranch curuser : String) (force : Bool)
    (ulock lines : List String) (pushFails : Bool)
    (hshort : (unlockScan repoid curbranch curuser force ulock [] [] lines).1.length
      < ulock.length) :
    unlockcmd repoid curbranch curuser force ulock (some lines) pushFails
      = .failed
          (if ulock.length = 1 then .noLocksFound
           else .onlySomeLocked
             (unlockScan repoid curbranch curuser force ulock [] [] lines).1.length
             ulock.length)
          lines ∧
    unlockExit (unlockcmd repoid curbranch curuser force ulock (some lines) pushFails)
      = some 1 ∧
    unlockCommitted (unlockcmd repoid curbranch curuser force ulock (some lines) pushFails)
      = false := by
  have hne : (unlockScan repoid curbranch curuser force ulock [] [] lines).1.length
      ≠ ulock.length := Nat.ne_of_lt hshort
  have h : unlockcmd repoid curbranch curuser force ulock (some lines) pushFails
      = .failed
          (if ulock.length = 1 then .noLocksFound
           else .onlySomeLocked
             (unlockScan repoid curbranch curuser force ulock [] [] lines).1.length
             ulock.length)
          lines := by
    simp only [unlockcmd]
    rw [if_pos hne]
  refine ⟨h, ?_, ?_⟩
  · rw [h]
    rfl
  · rw [h]
    rfl

/-- Witness for C2: one requested path against an empty registry. -/
theorem C2_unlock_shortfall_no_mutation_witness :
    (unlockScan "r" "b" "u" false ["f"] [] [] []).1.length < (["f"] : List String).length ∧
    (unlockcmd "r" "b" "u" false ["f"] (some []) false = .failed .noLocksFound [] ∧
     unlockExit (unlockcmd "r" "b" "u" false ["f"] (some []) false) = some 1 ∧
     unlockCommitted (unlockcmd "r" "b" "u" false ["f"] (some []) false) = false) :=
  ⟨by decide, C2_unlock_shortfall_no_mutation "r" "b" "u" false ["f"] [] false (by decide)⟩

/-- C3: if some target path is already present in the parsed lock
mapping for the caller's repository identity and branch, `lockcmd`
aborts with an "already locked" error naming a conflicting path and the
registry is unchanged (the abort happens before any write). -/
theorem C3_already_locked_aborts (repoid curbranch user purposeOpt : String)
    (files : List String) (registry : Option (List String)) (pushFails : Bool)
    (hex : ∃ w ∈ files,
      (dictGet ((parseLocks repoid curbranch registry).1) w).isSome = true) :
    ∃ w ∈ files, (dictGet ((parseLocks repoid curbranch registry).1) w).isSome = true ∧
      lockcmd repoid curbranch user purposeOpt files registry pushFails
        = .aborted (w ++ " is already locked\n") registry := by
  have hs : (files.find?
      (fun w => (dictGet ((parseLocks repoid curbranch registry).1) w).isSome)).isSome
      = true := by
    rw [List.find?_isSome]
    obtain ⟨w, hw, hp⟩ := hex
    exact ⟨w, hw, hp⟩
  obtain ⟨w, hw⟩ := Option.isSome_iff_exists.mp hs
  refine ⟨w, List.mem_of_find?_eq_some hw, ?_, ?_⟩
  · have h2 := List.find?_some hw
    simpa using h2
  · simp only [lockcmd]
    rw [hw]

/-- Witness for C3: locking a path already locked by another user. -/
theorem C3_already_locked_aborts_witness :
    (∃ w ∈ (["f"] : List String),
      (dictGet ((parseLocks "r" "b" (some ["r\tb\tf\tu\tp\n"])).1) w).isSome = true) ∧
    (∃ w ∈ (["f"] : List String),
      (dictGet ((parseLocks "r" "b" (some ["r\tb\tf\tu\tp\n"])).1) w).isSome = true ∧
      lockcmd "r" "b" "u2" "" ["f"] (some ["r\tb\tf\tu\tp\n"]) false
        = .aborted (w ++ " is already locked\n") (some ["r\tb\tf\tu\tp\n"])) :=
  ⟨by decide, C3_already_locked_aborts "r" "b" "u2" "" ["f"]
    (some ["r\tb\tf\tu\tp\n"]) false (by decide)⟩

/-- C4 counterexample: on a fully successful unlock the source drops the
malformed line `"garbage\n"` (it does not split into five fields, so the
loop never appends it to `outlines`), while the claim requires every
non-cleared line — including ones that do not split into five fields —
to be preserved verbatim. -/
theorem C4_counterexample :
    unlockcmd "r" "b" "u" false ["f"] (some ["garbage\n", "r\tb\tf\tu\tp\n"]) false
      = .ok [] (commitpush false) ∧
    decodeLine "garbage\n" = none ∧
    "garbage\n" ∉ ([] : List String) := by decide

/-- C4 (amended): on a fully successful unlock, the lines that split
into five fields partition into kept and cleared — a five-field line is
cleared iff it matches the caller's repository identity, branch, and a
requested path and the owner matches or force is set — and the rewritten
registry is exactly the kept lines, verbatim, in their original order;
lines that do not split into five fields are dropped by the rewrite. -/
theorem C4_unlock_rewrite_partition (repoid curbranch curuser : String) (force : Bool)
    (ulock lines : List String) (pushFails : Bool)
    (hfull : (unlockScan repoid curbranch curuser force ulock [] [] lines).1.length
      = ulock.length) :
    unlockcmd repoid curbranch curuser force ulock (some lines) pushFails
      = .ok (lines.filter (lineKept repoid curbranch curuser force ulock))
          (commitpush pushFails) ∧
    (∀ line, decodeLine line = none →
      lineKept repoid curbranch curuser force ulock line = false) ∧
    (∀ line r, decodeLine line = some r →
      (lineKept repoid curbranch curuser force ulock line = false ↔
        (r.rid = repoid ∧ r.branch = curbranch ∧ r.wfile ∈ ulock) ∧
          (r.user = curuser ∨ force = true))) := by
  refine ⟨unlockcmd_full_success repoid curbranch curuser force ulock lines pushFails hfull,
    ?_, ?_⟩
  · intro line h
    simp only [lineKept, h]
  · intro line r h
    simp only [lineKept, h]
    by_cases hP : (r.rid = repoid ∧ r.branch = curbranch ∧ r.wfile ∈ ulock) ∧
        (r.user = curuser ∨ force = true)
    · simp [hP]
    · simp [hP, if_neg hP]

/-- Witness for C4 (amended): a registry with one malformed line and one
matching record, fully cleared. -/
theorem C4_unlock_rewrite_partition_witness :
    (unlockScan "r" "b" "u" false ["f"] [] [] ["garbage\n", "r\tb\tf\tu\tp\n"]).1.length
      = (["f"] : List String).length ∧
    unlockcmd "r" "b" "u" false ["f"] (some ["garbage\n", "r\tb\tf\tu\tp\n"]) false
      = .ok ((["garbage\n", "r\tb\tf\tu\tp\n"] : List String).filter
          (lineKept "r" "b" "u" false ["f"])) (commitpush false) :=
  ⟨by decide,
    (C4_unlock_rewrite_partition "r" "b" "u" false ["f"]
      ["garbage\n", "r\tb\tf\tu\tp\n"] false (by decide)).1⟩

/-- C5 counterexample: two requested paths, zero cleared — the source
prints the "0 of 2" count message (the choice is made on the number of
requested files, `len(m.files()) == 1`), while the claim requires the
"no locks found" message exactly when zero paths were cleared. -/
theorem C5_counterexample :
    unlockcmd "r" "b" "u" false ["a", "b"] (some []) false
      = .failed (.onlySomeLocked 0 2) [] ∧
    UnlockMsg.onlySomeLocked 0 2 ≠ UnlockMsg.noLocksFound := by decide

/-- C5 (amended): on a shortfall the diagnostic is chosen by the number
of requested files, not by the number cleared: "no locks found" exactly
when a single file was requested, and the "N of M" count message exactly
when more than one file was requested. -/
theorem C5_message_by_request_count (repoid curbranch curuser : String) (force : Bool)
    (ulock lines : List String) (pushFails : Bool)
    (hshort : (unlockScan repoid curbranch curuser force ulock [] [] lines).1.length
      ≠ ulock.length) :
    (ulock.length = 1 →
      unlockcmd repoid curbranch curuser force ulock (some lines) pushFails
        = .failed .noLocksFound lines) ∧
    (ulock.length ≠ 1 →
      unlockcmd repoid curbranch curuser force ulock (some lines) pushFails
        = .failed (.onlySomeLocked
            (unlockScan repoid curbranch curuser force ulock [] [] lines).1.length
            ulock.length) lines) := by
  constructor
  · intro h1
    simp only [unlockcmd]
    rw [if_pos hshort, if_pos h1]
  · intro h1
    simp only [unlockcmd]
    rw [if_pos hshort, if_neg h1]

/-- Witness for C5 (amended): one requested path, empty registry. -/
theorem C5_message_by_request_count_witness :
    (unlockScan "r" "b" "u" false ["f"] [] [] []).1.length ≠ (["f"] : List String).length ∧
    ((["f"] : List String).length = 1 →
      unlockcmd "r" "b" "u" false ["f"] (some []) false = .failed .noLocksFound []) ∧
    ((["f"] : List String).length ≠ 1 →
      unlockcmd "r" "b" "u" false ["f"] (some []) false
        = .failed (.onlySomeLocked
            (unlockScan "r" "b" "u" false ["f"] [] [] []).1.length
            (["f"] : List String).length) []) :=
  ⟨by decide, C5_message_by_request_count "r" "b" "u" false ["f"] [] false (by decide)⟩

/-- C6 counterexample: with the registry file missing, `unlockcmd` opens
it directly (line 143) and the uncaught exception propagates (`ioError`)
— it does not behave like the empty registry state, refuting the claim
for the unlock operation. -/
theorem C6_counterexample :
    unlockcmd "r" "b" "u" false ["f"] none false = .ioError ∧
    unlockcmd "r" "b" "u" false ["f"] none false
      ≠ unlockcmd "r" "b" "u" false ["f"] (some []) false := by decide

/-- C6 (amended): `lock` and `locks` treat a missing registry file as
the empty lock state — `parseLocks` warns and returns the empty mapping,
and both commands behave exactly as on an empty registry file — while
`unlock` reads the file without going through `parseLocks` and fails
with an uncaught file-open error when it is missing. -/
theorem C6_missing_registry_behavior (repoid curbranch user purposeOpt curuser : String)
    (files ulock lockables pats : List String) (force unlocked : Bool) (pushFails : Bool) :
    parseLocks repoid curbranch none = ([], true) ∧
    lockcmd repoid curbranch user purposeOpt files none pushFails
      = lockcmd repoid curbranch user purposeOpt files (some []) pushFails ∧
    lockscmd repoid curbranch none lockables unlocked pats
      = lockscmd repoid curbranch (some []) lockables unlocked pats ∧
    unlockcmd repoid curbranch curuser force ulock none pushFails = .ioError := by
  refine ⟨rfl, ?_, rfl, rfl⟩
  have hnone : files.find?
      (fun w => (dictGet ((parseLocks repoid curbranch none).1) w).isSome) = none := by
    rw [List.find?_eq_none]
    intro x hx
    simp [parseLocks, dictGet]
  have hsome : files.find?
      (fun w => (dictGet ((parseLocks repoid curbranch (some [])).1) w).isSome) = none := hnone
  simp only [lockcmd]
  rw [hnone, hsome]
  rfl

/-- A line whose tab-split is not exactly five fields decodes to
`none`. -/
theorem decodeLine_eq_none (line : String)
    (h : ((pystrip line.toList).splitOn '\t').length ≠ 5) : decodeLine line = none := by
  rw [decodeLine]
  cases hl : (pystrip line.toList).splitOn '\t' with
  | nil => rfl
  | cons a t1 =>
    cases t1 with
    | nil => rfl
    | cons b t2 =>
      cases t2 with
      | nil => rfl
      | cons c t3 =>
        cases t3 with
        | nil => rfl
        | cons d t4 =>
          cases t4 with
          | nil => rfl
          | cons e t5 =>
            cases t5 with
            | nil =>
              rw [hl] at h
              simp at h
            | cons f t6 => rfl

/-- C7 counterexample: the five fields `("", "b", "c", "d", "e")` each
satisfy the claim's per-field condition (no tab, no newline, no leading
or trailing whitespace — vacuously for the empty field), but the encoded
line `"\tb\tc\td\te\n"` strips to four fields (`strip()` removes the
leading tab), so decoding skips it instead of yielding the five
fields. -/
theorem C7_counterexample :
    encodeRec ⟨"", "b", "c", "d", "e"⟩ = "\tb\tc\td\te\n" ∧
    saneField "" = true ∧ saneField "b" = true ∧ saneField "c" = true ∧
    saneField "d" = true ∧ saneField "e" = true ∧
    decodeLine "\tb\tc\td\te\n" = none := by decide

/-- C7 (amended): for a line built from five fields with no tab,
newline, or leading/trailing whitespace, *whose first and last fields
are nonempty*, decoding yields exactly those five fields (hence
re-encoding reproduces the identical line); and any line whose tab-split
is not exactly five fields decodes to `none` and contributes nothing to
the lock mapping. -/
theorem C7_codec_roundtrip (r : LockRec) (repoid curbranch : String) (acc : LockMap)
    (line : String) (rest : List String)
    (hsane : saneRec r)
    (hbad : ((pystrip line.toList).splitOn '\t').length ≠ 5) :
    decodeLine (encodeRec r) = some r ∧
    decodeLine line = none ∧
    parseLocksAux repoid curbranch acc (line :: rest)
      = parseLocksAux repoid curbranch acc rest := by
  refine ⟨decodeLine_encodeRec r hsane, decodeLine_eq_none line hbad, ?_⟩
  rw [parseLocksAux, decodeLine_eq_none line hbad]

/-- Witness for C7 (amended): a concrete sanitised record and a concrete
malformed line. -/
theorem C7_codec_roundtrip_witness :
    saneRec ⟨"deadbeef", "default", "a.bin", "alice", "editing"⟩ ∧
    ((pystrip ("garbage\n").toList).splitOn '\t').length ≠ 5 ∧
    (decodeLine (encodeRec ⟨"deadbeef", "default", "a.bin", "alice", "editing"⟩)
        = some ⟨"deadbeef", "default", "a.bin", "alice", "editing"⟩ ∧
      decodeLine "garbage\n" = none ∧
      parseLocksAux "deadbeef" "default" [] ["garbage\n", "r\tb\tf\tu\tp\n"]
        = parseLocksAux "deadbeef" "default" [] ["r\tb\tf\tu\tp\n"]) :=
  ⟨by decide, by decide,
    C7_codec_roundtrip ⟨"deadbeef", "default", "a.bin", "alice", "editing"⟩
      "deadbeef" "default" [] "garbage\n" ["r\tb\tf\tu\tp\n"] (by decide) (by decide)⟩

/-- C8: when the push raises `Abort` after a successful commit, both
`lockcmd` and `unlockcmd` catch it inside `commitpush` and only warn:
the operation still returns normally, the registry mutation persists in
the result, the commit stands (`committed = true`), the push did not
happen (`pushed = false`), and the retry warning is emitted. -/
theorem C8_push_failure_nonfatal (repoid curbranch user purposeOpt curuser : String)
    (files ulock lines lines2 : List String) (force : Bool)
    (hfresh : files.find?
      (fun w => (dictGet ((parseLocks repoid curbranch (some lines)).1) w).isSome) = none)
    (hfull : (unlockScan repoid curbranch curuser force ulock [] [] lines2).1.length
      = ulock.length) :
    commitpush true = ⟨true, false, true⟩ ∧
    lockcmd repoid curbranch user purposeOpt files (some lines) true
      = .ok (lines ++ opLines repoid curbranch ⟨user, purposeOpt, files⟩)
          ⟨true, false, true⟩ ∧
    unlockcmd repoid curbranch curuser force ulock (some lines2) true
      = .ok (lines2.filter (lineKept repoid curbranch curuser force ulock))
          ⟨true, false, true⟩ := by
  refine ⟨rfl, ?_, ?_⟩
  · exact lockcmd_ok_of_fresh repoid curbranch ⟨user, purposeOpt, files⟩ lines true hfresh
  · exact unlockcmd_full_success repoid curbranch curuser force ulock lines2 true hfull

/-- Witness for C8: a fresh lock of one path and a fully matching unlock
of one record, both with a failing push. -/
theorem C8_push_failure_nonfatal_witness :
    (["g"] : List String).find?
      (fun w => (dictGet ((parseLocks "r" "b" (some ["r\tb\tf\tu\tp\n"])).1) w).isSome)
        = none ∧
    (unlockScan "r" "b" "u" false ["f"] [] [] ["r\tb\tf\tu\tp\n"]).1.length
      = (["f"] : List String).length ∧
    (commitpush true = ⟨true, false, true⟩ ∧
     lockcmd "r" "b" "u" "" ["g"] (some ["r\tb\tf\tu\tp\n"]) true
       = .ok (["r\tb\tf\tu\tp\n"] ++ opLines "r" "b" ⟨"u", "", ["g"]⟩) ⟨true, false, true⟩ ∧
     unlockcmd "r" "b" "u" false ["f"] (some ["r\tb\tf\tu\tp\n"]) true
       = .ok ((["r\tb\tf\tu\tp\n"] : List String).filter (lineKept "r" "b" "u" false ["f"]))
           ⟨true, false, true⟩) :=
  ⟨by decide, by decide,
    C8_push_failure_nonfatal "r" "b" "u" "" "u" ["g"] ["f"]
      ["r\tb\tf\tu\tp\n"] ["r\tb\tf\tu\tp\n"] false (by decide) (by decide)⟩

/-! ## Ordering facts for the listing -/

theorem charLt_iff (a b : Char) : charLt a b = true ↔ a.toNat < b.toNat := by
  simp [charLt]

theorem listLe_total : ∀ a b : List Char, listLe a b = true ∨ listLe b a = true := by
  intro a
  induction a with
  | nil =>
    intro b
    left
    rfl
  | cons x as ih =>
    intro b
    cases b with
    | nil =>
      right
      rfl
    | cons y bs =>
      rw [listLe, listLe]
      by_cases h1 : charLt x y = true
      · left
        rw [if_pos h1]
      · by_cases h2 : charLt y x = true
        · right
          rw [if_pos h2]
        · simp only [if_neg h1, if_neg h2]
          exact ih bs

theorem listLe_trans : ∀ a b c : List Char,
    listLe a b = true → listLe b c = true → listLe a c = true := by
  intro a
  induction a with
  | nil =>
    intro b c _ _
    rfl
  | cons x as ih =>
    intro b c hab hbc
    cases b with
    | nil =>
      rw [listLe] at hab
      exact absurd hab (by simp)
    | cons y bs =>
      cases c with
      | nil =>
        rw [listLe] at hbc
        exact absurd hbc (by simp)
      | cons z cs =>
        rw [listLe] at hab hbc ⊢
        by_cases hxy : charLt x y = true
        · rw [if_pos hxy] at hab
          by_cases hyz : charLt y z = true
          · rw [if_pos ((charLt_iff x z).mpr
              (Nat.lt_trans ((charLt_iff x y).mp hxy) ((charLt_iff y z).mp hyz)))]
          · by_cases hzy : charLt z y = true
            · rw [if_neg hyz, if_pos hzy] at hbc
              exact absurd hbc (by simp)
            · have h1 := (charLt_iff x y).mp hxy
              have h2 : ¬ y.toNat < z.toNat := fun hc => hyz ((charLt_iff y z).mpr hc)
              have h3 : ¬ z.toNat < y.toNat := fun hc => hzy ((charLt_iff z y).mpr hc)
              rw [if_pos ((charLt_iff x z).mpr (by omega))]
        · by_cases hyx : charLt y x = true
          · rw [if_neg hxy, if_pos hyx] at hab
            exact absurd hab (by simp)
          · have h1 : ¬ x.toNat < y.toNat := fun hc => hxy ((charLt_iff x y).mpr hc)
            have h2 : ¬ y.toNat < x.toNat := fun hc => hyx ((charLt_iff y x).mpr hc)
            rw [if_neg hxy, if_neg hyx] at hab
            by_cases hyz : charLt y z = true
            · have h3 := (charLt_iff y z).mp hyz
              rw [if_pos ((charLt_iff x z).mpr (by omega))]
            · by_cases hzy : charLt z y = true
              · rw [if_neg hyz, if_pos hzy] at hbc
                exact absurd hbc (by simp)
              · have h3 : ¬ y.toNat < z.toNat := fun hc => hyz ((charLt_iff y z).mpr hc)
                have h4 : ¬ z.toNat < y.toNat := fun hc => hzy ((charLt_iff z y).mpr hc)
                rw [if_neg hyz, if_neg hzy] at hbc
                rw [if_neg (fun hc => absurd ((charLt_iff x z).mp hc) (by omega)),
                  if_neg (fun hc => absurd ((charLt_iff z x).mp hc) (by omega))]
                exact ih bs cs hab hbc

instance : IsTotal String strLe := ⟨fun a b => listLe_total a.toList b.toList⟩

instance : IsTrans String strLe := ⟨fun a b c => listLe_trans a.toList b.toList c.toList⟩

theorem flatMap_eq_map_of_singleton {α β : Type} (f : α → List β) (g : α → β)
    (h : ∀ x, f x = [g x]) : ∀ l : List α, l.flatMap f = l.map g := by
  intro l
  induction l with
  | nil => rfl
  | cons x xs ih =>
    rw [List.flatMap_cons, List.map_cons, h x, ih]
    rfl

theorem sublist_flatMap_of_sublist {α β : Type} (f g : α → List β)
    (h : ∀ x, (f x).Sublist (g x)) : ∀ l : List α, (l.flatMap f).Sublist (l.flatMap g) := by
  intro l
  induction l with
  | nil => simp
  | cons x xs ih =>
    rw [List.flatMap_cons, List.flatMap_cons]
    exact (h x).append ih

/-- C9: for a fixed lock mapping and lockable set, the iteration order
of the listing is the lexicographically sorted union of locked and
lockable paths; with `--unlocked` every path of that union produces
exactly one line, and the output without `--unlocked` is a subsequence
of the output with it. -/
theorem C9_locks_sorted_subsequence (repoid curbranch : String)
    (registry : Option (List String)) (lockables pats : List String) :
    List.Sorted strLe
      (sortedUnion lockables (dictKeys (parseLocks repoid curbranch registry).1)) ∧
    (∀ w, w ∈ sortedUnion lockables (dictKeys (parseLocks repoid curbranch registry).1) ↔
      (w ∈ lockables ∨ w ∈ dictKeys (parseLocks repoid curbranch registry).1)) ∧
    lockscmd repoid curbranch registry lockables true pats
      = (sortedUnion lockables (dictKeys (parseLocks repoid curbranch registry).1)).map
          (lockLine (parseLocks repoid curbranch registry).1) ∧
    (lockscmd repoid curbranch registry lockables false pats).Sublist
      (lockscmd repoid curbranch registry lockables true pats) := by
  refine ⟨?_, ?_, ?_, ?_⟩
  · exact List.sorted_insertionSort strLe _
  · intro w
    rw [sortedUnion, (List.perm_insertionSort strLe _).mem_iff]
    simp [List.mem_dedup]
  · simp only [lockscmd]
    apply flatMap_eq_map_of_singleton
    intro w
    cases h : dictGet (parseLocks repoid curbranch registry).1 w with
    | none => simp [lockLine, h]
    | some v =>
      obtain ⟨u, p⟩ := v
      simp [lockLine, h]
  · simp only [lockscmd]
    apply sublist_flatMap_of_sublist
    intro w
    cases h : dictGet (parseLocks repoid curbranch registry).1 w with
    | none => simp [h]
    | some v =>
      obtain ⟨u, p⟩ := v
      simp [h]

/-- C10: the positional pattern arguments of the `locks` command are
accepted but never consulted: two invocations differing only in them
print the same lines. -/
theorem C10_locks_ignores_patterns (repoid curbranch : String)
    (registry : Option (List String)) (lockables : List String) (unlocked : Bool)
    (pats pats2 : List String) :
    lockscmd repoid curbranch registry lockables unlocked pats
      = lockscmd repoid curbranch registry lockables unlocked pats2 := rfl
